import Mathlib

/-!
Verification of the session-lifecycle core of pusher/oauth2_proxy.

The first part embeds `providers/session_state.go` (the session codec):
`SessionState`, `EncodeSessionState`, `EncryptedString`,
`decodeSessionStatePlain`, `DecodeSessionState`, `IsExpired`.

Go strings are modelled as Lean `String`; `strings.Split` on a one-character
separator is modelled by `goSplit`; `strconv.Atoi` (whose error the decoder
discards) by `goAtoi`; `fmt.Sprintf("%d", ...)` by `intToStr`.  A Go
`time.Time` is modelled at the granularity the code uses (Unix seconds plus
nanoseconds): `GoTime`.  The Go zero time (January 1, year 1 UTC) has Unix
seconds -62135596800.  A `cookie.Cipher` (repository code not included in the
sources) is modelled abstractly as a pair of fallible string transformers.
-/

namespace OAuth2Proxy

/-- Splits a character list at every occurrence of `sep`, keeping empty
segments, like Go `strings.Split` with a one-character separator
(`Split("", sep) = [""]`). -/
def splitCh (sep : Char) : List Char → List (List Char)
  | [] => [[]]
  | c :: cs =>
    match splitCh sep cs with
    | [] => [[]]
    | f :: rest => if c = sep then [] :: f :: rest else (c :: f) :: rest

/-- Go `strings.Split(s, sep)` for a one-character separator. -/
def goSplit (s : String) (sep : Char) : List String :=
  (splitCh sep s.data).map fun l => ⟨l⟩

/-- Go `strings.TrimPrefix`: drop `p` from the front of `s` when present. -/
def trimPre (p s : String) : String :=
  if p.data.isPrefixOf s.data then ⟨s.data.drop p.data.length⟩ else s

/-- Digits of `n` in base 10, least significant first, with explicit fuel so
that the recursion is structural (the kernel can evaluate it). -/
def natDigitsRevF : Nat → Nat → List Char
  | 0, _ => []
  | fuel+1, n =>
    if n < 10 then [Nat.digitChar n]
    else Nat.digitChar (n % 10) :: natDigitsRevF fuel (n / 10)

/-- Decimal rendering of a natural number, as Go `fmt.Sprintf("%d", n)`. -/
def natToStr (n : Nat) : String := ⟨(natDigitsRevF (n+1) n).reverse⟩

/-- Decimal rendering of an integer, as Go `fmt.Sprintf("%d", i)`. -/
def intToStr (i : Int) : String :=
  if i < 0 then "-" ++ natToStr i.natAbs else natToStr i.toNat

/-- Parses a non-empty all-digit character list; `none` on empty input or any
non-digit character. -/
def digitsVal (l : List Char) : Option Nat :=
  match l with
  | [] => none
  | _ =>
    l.foldl
      (fun acc ch => acc.bind fun a =>
        if ch.isDigit then some (10 * a + (ch.toNat - 48)) else none)
      (some 0)

/-- `strconv.Atoi` on a character list, with the error dropped: Go's
`ts, _ := strconv.Atoi(...)` yields 0 on any syntax error (an optional sign
must be followed by at least one digit, and every character must be a
digit). -/
def atoiL (l : List Char) : Int :=
  match l with
  | [] => 0
  | c :: rest =>
    if c = '-' then (match digitsVal rest with | some n => -(n : Int) | none => 0)
    else if c = '+' then (match digitsVal rest with | some n => (n : Int) | none => 0)
    else (match digitsVal (c :: rest) with | some n => (n : Int) | none => 0)

/-- Go `ts, _ := strconv.Atoi(s)` (0 when the parse fails). -/
def goAtoi (s : String) : Int := atoiL s.data

/-- Whether `strconv.Atoi` accepts `s` (optional sign, then ≥1 digits). -/
def isIntStr (s : String) : Bool :=
  match s.data with
  | [] => false
  | c :: rest =>
    if c = '-' then (digitsVal rest).isSome
    else if c = '+' then (digitsVal rest).isSome
    else (digitsVal (c :: rest)).isSome

/-- A Go `time.Time` at the granularity this code observes: Unix seconds and
nanoseconds.  `time.Unix(ts, 0)` is `⟨ts, 0⟩`. -/
structure GoTime where
  unix : Int
  nsec : Int
deriving DecidableEq, Repr

/-- Unix seconds of the Go zero time (January 1, year 1 UTC). -/
def goZeroUnix : Int := -62135596800

/-- The Go zero `time.Time`. -/
def goZeroTime : GoTime := ⟨goZeroUnix, 0⟩

/-- Go `t.IsZero()`. -/
def GoTime.IsZero (t : GoTime) : Bool := t.unix = goZeroUnix && t.nsec = 0

/-- Go `t.Before(u)`. -/
def GoTime.Before (t u : GoTime) : Bool :=
  t.unix < u.unix || (t.unix = u.unix && t.nsec < u.nsec)

/-- The cipher delegate (`cookie.Cipher`): per-field fallible `Encrypt` and
`Decrypt`, modelled abstractly since the cookie package is external to the
sources under study. -/
structure Cipher where
  encrypt : String → Option String
  decrypt : String → Option String

/-- `Decrypt` is a left inverse of `Encrypt` (the claim's cipher premise). -/
def CipherLeftInv (c : Cipher) : Prop :=
  ∀ x y, c.encrypt x = some y → c.decrypt y = some x

/-- The session record of `providers/session_state.go`. -/
structure SessionState where
  AccessToken : String
  IDToken : String
  ExpiresOn : GoTime
  RefreshToken : String
  Email : String
  User : String
deriving DecidableEq, Repr

/-- Go `SessionState.IsExpired`, with the ambient `time.Now()` passed
explicitly. -/
def IsExpired (s : SessionState) (now : GoTime) : Bool :=
  !s.ExpiresOn.IsZero && s.ExpiresOn.Before now

/-- Go `accountInfo`: `fmt.Sprintf("email:%s user:%s", s.Email, s.User)`. -/
def accountInfo (s : SessionState) : String :=
  "email:" ++ s.Email ++ " user:" ++ s.User

/-- The local part Go computes with `strings.Split(email, "@")[0]`. -/
def localAt (e : String) : String := (goSplit e '@').getD 0 ""

/-- The user value `EncryptedString` actually encrypts: `s.User`, falling back
to the Email local part when `s.User` is empty. -/
def userOrLocal (s : SessionState) : String :=
  if s.User = "" then localAt s.Email else s.User

/-- Encrypt a field the way `EncryptedString` does: empty fields are left
empty and never encrypted. -/
def encField (c : Cipher) (x : String) : Option String :=
  if x = "" then some "" else c.encrypt x

/-- Go `SessionState.EncryptedString`: the 6-field pipe-joined format
`email|user|accessToken|idToken|expiresOnUnix|refreshToken`. -/
def EncryptedString (s : SessionState) (c : Cipher) : Option String := do
  let e ← encField c s.Email
  let u ← encField c (userOrLocal s)
  let a ← encField c s.AccessToken
  let i ← encField c s.IDToken
  let r ← encField c s.RefreshToken
  some (e ++ "|" ++ u ++ "|" ++ a ++ "|" ++ i ++ "|" ++ intToStr s.ExpiresOn.unix ++ "|" ++ r)

/-- Go `SessionState.EncodeSessionState`: plain `accountInfo` when there is no
cipher or no access token, otherwise the encrypted 6-field format. -/
def EncodeSessionState (s : SessionState) (c : Option Cipher) : Option String :=
  match c with
  | none => some (accountInfo s)
  | some c => if s.AccessToken = "" then some (accountInfo s) else EncryptedString s c

/-- Go `decodeSessionStatePlain`. -/
def decodeSessionStatePlain (v : String) : Option SessionState :=
  let chunks := goSplit v ' '
  match chunks with
  | [c0, c1] =>
    let email := trimPre "email:" c0
    let user0 := trimPre "user:" c1
    let user := if user0 = "" then localAt email else user0
    some { Email := email, User := user, AccessToken := "", IDToken := "",
           ExpiresOn := goZeroTime, RefreshToken := "" }
  | _ => none

/-- Decrypt a field the way `DecodeSessionState` does: an empty chunk yields
the empty string without calling the cipher. -/
def decField (c : Cipher) (x : String) : Option String :=
  if x = "" then some "" else c.decrypt x

/-- The 6-chunk branch of Go `DecodeSessionState`: anything but exactly 6
chunks is an error, each non-empty textual chunk must decrypt, and the
timestamp chunk is parsed with its error discarded. -/
def decodeChunks (c : Cipher) (l : List String) : Option SessionState :=
  match l with
  | [e, u, a, i, t, r] => do
    let email ← decField c e
    let user ← decField c u
    let acc ← decField c a
    let idt ← decField c i
    let rft ← decField c r
    some { Email := email, User := user, AccessToken := acc, IDToken := idt,
           ExpiresOn := ⟨goAtoi t, 0⟩, RefreshToken := rft }
  | _ => none

/-- Go `DecodeSessionState`. -/
def DecodeSessionState (v : String) (c : Option Cipher) : Option SessionState :=
  match c with
  | none => decodeSessionStatePlain v
  | some c => decodeChunks c (goSplit v '|')

/-! ### Properties of `goSplit` and the decimal rendering -/

/-- A string containing no occurrence of the field separator `'|'`. -/
def pipeFree (s : String) : Prop := '|' ∉ s.data

instance (s : String) : Decidable (pipeFree s) := by unfold pipeFree; infer_instance

theorem splitCh_ne_nil (sep : Char) (l : List Char) : splitCh sep l ≠ [] := by
  cases l with
  | nil => simp [splitCh]
  | cons c cs =>
    simp only [splitCh]
    split
    · simp
    · split <;> simp

theorem splitCh_sepFree (sep : Char) (l : List Char) (h : sep ∉ l) :
    splitCh sep l = [l] := by
  induction l with
  | nil => rfl
  | cons c cs ih =>
    simp only [List.mem_cons, not_or] at h
    simp only [splitCh, ih h.2]
    rw [if_neg (by intro e; exact h.1 e.symm)]

theorem splitCh_appendSep (sep : Char) (p t : List Char) (h : sep ∉ p) :
    splitCh sep (p ++ sep :: t) = p :: splitCh sep t := by
  induction p with
  | nil =>
    simp only [List.nil_append, splitCh]
    cases ht : splitCh sep t with
    | nil => exact absurd ht (splitCh_ne_nil sep t)
    | cons f rest => simp
  | cons c cs ih =>
    simp only [List.mem_cons, not_or] at h
    have hred : splitCh sep (c :: cs ++ sep :: t)
        = match splitCh sep (cs ++ sep :: t) with
          | [] => [[]]
          | f :: rest => if c = sep then [] :: f :: rest else (c :: f) :: rest := rfl
    rw [hred, ih h.2]
    simp only []
    rw [if_neg (fun e => h.1 e.symm)]

/-- Splitting the pipe-joined 6-field record recovers the six fields, provided
each field is free of the separator. -/
theorem goSplit_join6 (e u a i t r : String)
    (he : pipeFree e) (hu : pipeFree u) (ha : pipeFree a)
    (hi : pipeFree i) (ht : pipeFree t) (hr : pipeFree r) :
    goSplit (e ++ "|" ++ u ++ "|" ++ a ++ "|" ++ i ++ "|" ++ t ++ "|" ++ r) '|'
      = [e, u, a, i, t, r] := by
  have hdata : (e ++ "|" ++ u ++ "|" ++ a ++ "|" ++ i ++ "|" ++ t ++ "|" ++ r).data
      = e.data ++ '|' :: (u.data ++ '|' :: (a.data ++ '|' :: (i.data ++ '|' :: (t.data ++ '|' :: r.data)))) := by
    simp [String.data_append]
  unfold goSplit
  rw [hdata, splitCh_appendSep _ _ _ he, splitCh_appendSep _ _ _ hu,
    splitCh_appendSep _ _ _ ha, splitCh_appendSep _ _ _ hi,
    splitCh_appendSep _ _ _ ht, splitCh_sepFree _ _ hr]
  rfl

theorem digitChar_isDigit {d : Nat} (h : d < 10) : (Nat.digitChar d).isDigit = true := by
  interval_cases d <;> decide

theorem digitChar_toNat {d : Nat} (h : d < 10) : (Nat.digitChar d).toNat = 48 + d := by
  interval_cases d <;> decide

theorem natDigitsRevF_digits {fuel n : Nat} (h : n < fuel) :
    ∀ ch ∈ natDigitsRevF fuel n, ch.isDigit = true := by
  induction fuel generalizing n with
  | zero => omega
  | succ f ih =>
    intro ch hch
    simp only [natDigitsRevF] at hch
    split at hch
    · simp only [List.mem_singleton] at hch
      subst hch; exact digitChar_isDigit (by omega)
    · rcases List.mem_cons.mp hch with rfl | hmem
      · exact digitChar_isDigit (Nat.mod_lt _ (by omega))
      · exact ih (by omega : n / 10 < f) ch hmem

theorem natDigitsRevF_ne_nil {fuel n : Nat} (h : n < fuel) :
    natDigitsRevF fuel n ≠ [] := by
  cases fuel with
  | zero => omega
  | succ f => simp only [natDigitsRevF]; split <;> simp

theorem natDigitsRevF_foldr {fuel n : Nat} (h : n < fuel) :
    List.foldr (fun ch a => 10 * a + (ch.toNat - 48)) 0 (natDigitsRevF fuel n) = n := by
  induction fuel generalizing n with
  | zero => omega
  | succ f ih =>
    simp only [natDigitsRevF]
    split
    · next hlt =>
      simp only [List.foldr_cons, List.foldr_nil]
      rw [digitChar_toNat hlt]; omega
    · next hge =>
      simp only [List.foldr_cons, ih (by omega : n / 10 < f)]
      rw [digitChar_toNat (Nat.mod_lt _ (by omega))]
      have := Nat.div_add_mod n 10
      omega

theorem digitsVal_allDigits (l : List Char) (hne : l ≠ [])
    (hd : ∀ ch ∈ l, ch.isDigit = true) :
    digitsVal l = some (List.foldl (fun a ch => 10 * a + (ch.toNat - 48)) 0 l) := by
  have key : ∀ (m : List Char), (∀ ch ∈ m, ch.isDigit = true) → ∀ acc : Nat,
      List.foldl
        (fun acc ch => acc.bind fun a =>
          if ch.isDigit then some (10 * a + (ch.toNat - 48)) else none)
        (some acc) m
      = some (List.foldl (fun a ch => 10 * a + (ch.toNat - 48)) acc m) := by
    intro m
    induction m with
    | nil => intro _ acc; rfl
    | cons c cs ih =>
      intro hm acc
      have hc : c.isDigit = true := hm c (List.mem_cons_self c cs)
      simp only [List.foldl_cons, Option.bind_some, hc, if_true]
      exact ih (fun ch hch => hm ch (List.mem_cons_of_mem c hch)) _
  cases l with
  | nil => exact absurd rfl hne
  | cons c cs =>
    show List.foldl _ (some 0) (c :: cs) = _
    exact key (c :: cs) hd 0

theorem digitsVal_natDigits (n : Nat) :
    digitsVal (natDigitsRevF (n+1) n).reverse = some n := by
  have hlt : n < n + 1 := Nat.lt_succ_self n
  have hne : (natDigitsRevF (n+1) n).reverse ≠ [] := by
    simp [List.reverse_eq_nil_iff]
    exact natDigitsRevF_ne_nil hlt
  have hd : ∀ ch ∈ (natDigitsRevF (n+1) n).reverse, ch.isDigit = true := by
    intro ch hch
    exact natDigitsRevF_digits hlt ch (List.mem_reverse.mp hch)
  rw [digitsVal_allDigits _ hne hd, List.foldl_reverse, natDigitsRevF_foldr hlt]

theorem isDigit_ne_minus {c : Char} (h : c.isDigit = true) : c ≠ '-' := by
  intro e; subst e; simp [Char.isDigit] at h

theorem isDigit_ne_plus {c : Char} (h : c.isDigit = true) : c ≠ '+' := by
  intro e; subst e; simp [Char.isDigit] at h

theorem isDigit_ne_pipe {c : Char} (h : c.isDigit = true) : c ≠ '|' := by
  intro e; subst e; simp [Char.isDigit] at h

theorem atoiL_digits (l : List Char) (hne : l ≠ [])
    (hd : ∀ ch ∈ l, ch.isDigit = true) (n : Nat) (hv : digitsVal l = some n) :
    atoiL l = (n : Int) := by
  cases l with
  | nil => exact absurd rfl hne
  | cons c cs =>
    have hc : c.isDigit = true := hd c (List.mem_cons_self c cs)
    show (if c = '-' then _ else if c = '+' then _ else _) = (n : Int)
    rw [if_neg (isDigit_ne_minus hc), if_neg (isDigit_ne_plus hc), hv]

/-- `strconv.Atoi` undoes `fmt.Sprintf("%d", ·)`. -/
theorem goAtoi_intToStr (i : Int) : goAtoi (intToStr i) = i := by
  unfold goAtoi intToStr
  split
  · next hneg =>
    have hdata : ("-" ++ natToStr i.natAbs).data
        = '-' :: (natDigitsRevF (i.natAbs+1) i.natAbs).reverse := by
      rw [String.data_append]; rfl
    have hred : ∀ rest : List Char, atoiL ('-' :: rest)
        = (match digitsVal rest with | some n => -(n : Int) | none => 0) :=
      fun _ => rfl
    rw [hdata, hred, digitsVal_natDigits i.natAbs]
    show -((i.natAbs : Nat) : Int) = i
    omega
  · next hpos =>
    show atoiL (natDigitsRevF (i.toNat+1) i.toNat).reverse = i
    have hlt : i.toNat < i.toNat + 1 := Nat.lt_succ_self _
    have hne : (natDigitsRevF (i.toNat+1) i.toNat).reverse ≠ [] := by
      simp [List.reverse_eq_nil_iff]
      exact natDigitsRevF_ne_nil hlt
    have hd : ∀ ch ∈ (natDigitsRevF (i.toNat+1) i.toNat).reverse, ch.isDigit = true := by
      intro ch hch
      exact natDigitsRevF_digits hlt ch (List.mem_reverse.mp hch)
    rw [atoiL_digits _ hne hd i.toNat (digitsVal_natDigits i.toNat)]
    omega

/-- Decimal renderings never contain the field separator. -/
theorem intToStr_pipeFree (i : Int) : pipeFree (intToStr i) := by
  unfold intToStr pipeFree
  have hnat : ∀ n : Nat, '|' ∉ (natToStr n).data := by
    intro n hmem
    have := natDigitsRevF_digits (Nat.lt_succ_self n) '|' (List.mem_reverse.mp hmem)
    simp [Char.isDigit] at this
  split
  · rw [String.data_append]
    intro hmem
    rcases List.mem_append.mp hmem with h | h
    · simp at h
    · exact hnat _ h
  · exact hnat _

/-! ### Characterizations of the decoder -/

/-- A chunk the decoder rejects: non-empty, and decryption fails. -/
def badChunk (c : Cipher) (x : String) : Prop := x ≠ "" ∧ c.decrypt x = none

/-- A chunk the decoder accepts: empty, or decryption succeeds. -/
def chunkOK (c : Cipher) (x : String) : Prop := x = "" ∨ (c.decrypt x).isSome

theorem decField_none_iff (c : Cipher) (x : String) :
    decField c x = none ↔ badChunk c x := by
  unfold decField badChunk
  split <;> simp [*]

theorem decodeChunks_six_none (c : Cipher) (e u a i t r : String) :
    decodeChunks c [e, u, a, i, t, r] = none ↔
      (decField c e = none ∨ decField c u = none ∨ decField c a = none ∨
        decField c i = none ∨ decField c r = none) := by
  rcases he : decField c e with _ | ve <;> rcases hu : decField c u with _ | vu <;>
    rcases ha : decField c a with _ | va <;> rcases hi2 : decField c i with _ | vi <;>
    rcases hr : decField c r with _ | vr <;>
    simp [decodeChunks, he, hu, ha, hi2, hr]

theorem decodeChunks_six_some (c : Cipher) (e u a i t r : String)
    (s2 : SessionState) (h : decodeChunks c [e, u, a, i, t, r] = some s2) :
    decField c e = some s2.Email ∧ decField c u = some s2.User ∧
    decField c a = some s2.AccessToken ∧ decField c i = some s2.IDToken ∧
    decField c r = some s2.RefreshToken ∧ s2.ExpiresOn = ⟨goAtoi t, 0⟩ := by
  rcases he : decField c e with _ | ve <;> rcases hu : decField c u with _ | vu <;>
    rcases ha : decField c a with _ | va <;> rcases hi2 : decField c i with _ | vi <;>
    rcases hr : decField c r with _ | vr <;>
    simp [decodeChunks, he, hu, ha, hi2, hr] at h <;>
    subst h <;> simp

theorem splitCh_headD (sep : Char) (l : List Char) :
    (splitCh sep l).headD [] = l.takeWhile (fun ch => ch != sep) := by
  induction l with
  | nil => rfl
  | cons c cs ih =>
    simp only [splitCh]
    rcases hs : splitCh sep cs with _ | ⟨f, rest⟩
    · exact absurd hs (splitCh_ne_nil sep cs)
    · rw [hs] at ih
      simp only [List.headD_cons] at ih
      by_cases hc : c = sep
      · subst hc
        simp [List.takeWhile_cons]
      · simp [hc, List.takeWhile_cons, ih]

/-- `strings.Split(e, "@")[0]` is the part of `e` before the first `'@'`. -/
theorem localAt_takeWhile (e : String) :
    localAt e = ⟨e.data.takeWhile (fun ch => ch != '@')⟩ := by
  unfold localAt goSplit
  rcases hs : splitCh '@' e.data with _ | ⟨f, rest⟩
  · exact absurd hs (splitCh_ne_nil '@' e.data)
  · have := splitCh_headD '@' e.data
    rw [hs] at this
    simp only [List.headD_cons] at this
    simp [this]

/-- Claim C8: with no cipher, or with an empty AccessToken, Encode yields
exactly `email:<Email> user:<User>` (single space separator); plain Decode
errors unless splitting on a space yields exactly 2 chunks, recovers only
Email and User (all other fields stay zero), and when the decoded User is
empty it is set to the part of Email before the first `'@'`. -/
theorem claim_C8 (s : SessionState) (c : Option Cipher) (v : String) :
    ((c = none ∨ s.AccessToken = "") →
      EncodeSessionState s c = some ("email:" ++ s.Email ++ " user:" ++ s.User)) ∧
    ((DecodeSessionState v none).isSome ↔ (goSplit v ' ').length = 2) ∧
    (∀ s2, DecodeSessionState v none = some s2 →
      s2.Email = trimPre "email:" ((goSplit v ' ').getD 0 "") ∧
      s2.User = (if trimPre "user:" ((goSplit v ' ').getD 1 "") = ""
                 then ⟨s2.Email.data.takeWhile (fun ch => ch != '@')⟩
                 else trimPre "user:" ((goSplit v ' ').getD 1 "")) ∧
      s2.AccessToken = "" ∧ s2.IDToken = "" ∧ s2.RefreshToken = "" ∧
      s2.ExpiresOn = goZeroTime) := by
  refine ⟨?_, ?_, ?_⟩
  · rintro (rfl | hA)
    · rfl
    · cases c <;> simp [EncodeSessionState, hA, accountInfo]
  · show (decodeSessionStatePlain v).isSome ↔ _
    unfold decodeSessionStatePlain
    rcases hl : goSplit v ' ' with _ | ⟨c0, _ | ⟨c1, _ | ⟨c2, rest⟩⟩⟩ <;> simp
  · intro s2 h
    replace h : decodeSessionStatePlain v = some s2 := h
    unfold decodeSessionStatePlain at h
    rcases hl : goSplit v ' ' with _ | ⟨c0, _ | ⟨c1, _ | ⟨c2, rest⟩⟩⟩ <;>
      rw [hl] at h <;> simp only [] at h
    · exact absurd h (by simp)
    · exact absurd h (by simp)
    · injection h with h
      subst h
      refine ⟨rfl, ?_, rfl, rfl, rfl, rfl⟩
      show (if trimPre "user:" c1 = "" then localAt (trimPre "email:" c0)
            else trimPre "user:" c1)
          = if trimPre "user:" c1 = ""
            then ⟨(trimPre "email:" c0).data.takeWhile (fun ch => ch != '@')⟩
            else trimPre "user:" c1
      rw [localAt_takeWhile]
    · exact absurd h (by simp)

/-! ### Claim C1: the encrypted round trip -/

/-- Cipher `c` handles plaintext `x` wire-safely: either the field is empty
(and is then never encrypted), or encryption succeeds, producing a non-empty
ciphertext free of the `'|'` separator that decrypts back to `x`. -/
def GoodFor (c : Cipher) (x : String) : Prop :=
  x = "" ∨ ∃ y, c.encrypt x = some y ∧ y ≠ "" ∧ pipeFree y ∧ c.decrypt y = some x

theorem goodFor_roundtrip {c : Cipher} {x : String} (h : GoodFor c x) :
    ∃ y, encField c x = some y ∧ pipeFree y ∧ decField c y = some x := by
  by_cases hx : x = ""
  · subst hx
    exact ⟨"", by simp [encField], by simp [pipeFree], by simp [decField]⟩
  · rcases h with h' | ⟨y, henc, hne, hpf, hdec⟩
    · exact absurd h' hx
    · exact ⟨y, by simp [encField, hx, henc], hpf,
        by simp [decField, hne, hdec]⟩

/-- Claim C1 (amended): for a session with non-empty AccessToken and a cipher
whose Decrypt is a left inverse of Encrypt *and whose ciphertexts are
non-empty and separator-free on the encoded fields*, Decode ∘ Encode succeeds
and reproduces Email, AccessToken, IDToken, ExpiresOn (as Unix seconds) and
RefreshToken exactly; User is reproduced exactly when non-empty, and otherwise
comes back as the Email local part the encoder substituted for it. -/
theorem claim_C1_amended (c : Cipher) (s : SessionState)
    (hA : s.AccessToken ≠ "")
    (hE : GoodFor c s.Email) (hU : GoodFor c (userOrLocal s))
    (hAT : GoodFor c s.AccessToken) (hI : GoodFor c s.IDToken)
    (hR : GoodFor c s.RefreshToken) :
    ∃ v s2, EncodeSessionState s (some c) = some v ∧
      DecodeSessionState v (some c) = some s2 ∧
      s2.Email = s.Email ∧ s2.User = userOrLocal s ∧
      s2.AccessToken = s.AccessToken ∧ s2.IDToken = s.IDToken ∧
      s2.ExpiresOn.unix = s.ExpiresOn.unix ∧ s2.RefreshToken = s.RefreshToken := by
  obtain ⟨e, hee, hep, hed⟩ := goodFor_roundtrip hE
  obtain ⟨u, hue, hup, hud⟩ := goodFor_roundtrip hU
  obtain ⟨a, hae, hap, had⟩ := goodFor_roundtrip hAT
  obtain ⟨i, hie, hip, hid⟩ := goodFor_roundtrip hI
  obtain ⟨r, hre, hrp, hrd⟩ := goodFor_roundtrip hR
  refine ⟨e ++ "|" ++ u ++ "|" ++ a ++ "|" ++ i ++ "|" ++ intToStr s.ExpiresOn.unix ++ "|" ++ r,
    ⟨s.AccessToken, s.IDToken, ⟨s.ExpiresOn.unix, 0⟩, s.RefreshToken, s.Email, userOrLocal s⟩,
    ?_, ?_, rfl, rfl, rfl, rfl, rfl, rfl⟩
  · simp [EncodeSessionState, hA, EncryptedString, hee, hue, hae, hie, hre]
  · show decodeChunks c (goSplit _ '|') = _
    rw [goSplit_join6 e u a i (intToStr s.ExpiresOn.unix) r hep hup hap hip
      (intToStr_pipeFree _) hrp]
    simp [decodeChunks, hed, hud, had, hid, hrd, goAtoi_intToStr]

/-- The identity cipher: its Decrypt is trivially a left inverse of its
Encrypt, and it never fails. -/
def idCipher : Cipher := ⟨fun x => some x, fun x => some x⟩

/-- The concrete session refuting claim C1 as stated: empty User with an
Email that has a non-empty local part. -/
def c1CexSession : SessionState :=
  { AccessToken := "t", IDToken := "", ExpiresOn := ⟨0, 0⟩,
    RefreshToken := "", Email := "a@b", User := "" }

/-- Claim C1 counterexample: with the identity cipher (Decrypt a left inverse
of Encrypt) and a session with non-empty AccessToken but empty User, the
decoded User is the Email local part "a", not the original empty User — so
Decode ∘ Encode does not reproduce the User field. -/
theorem claim_C1_counterexample :
    CipherLeftInv idCipher ∧
    c1CexSession.AccessToken ≠ "" ∧
    EncodeSessionState c1CexSession (some idCipher) = some "a@b|a|t||0|" ∧
    DecodeSessionState "a@b|a|t||0|" (some idCipher)
      = some { AccessToken := "t", IDToken := "", ExpiresOn := ⟨0, 0⟩,
               RefreshToken := "", Email := "a@b", User := "a" } ∧
    ("a" : String) ≠ c1CexSession.User := by
  refine ⟨?_, by decide, by decide, by decide, by decide⟩
  intro x y h
  injection h with h
  exact congrArg some h.symm

/-- Claim C3: with a cipher present, Decode returns an error exactly when
splitting on `'|'` does not yield 6 fields, or some non-empty field among
positions {email, user, accessToken, idToken, refreshToken} fails decryption;
on success every empty slot produces the empty string for a textual field and
Unix-second 0 (`time.Unix(0,0)`) for the timestamp field. -/
theorem claim_C3 (c : Cipher) (v : String) :
    (DecodeSessionState v (some c) = none ↔
      ((goSplit v '|').length ≠ 6 ∨
        badChunk c ((goSplit v '|').getD 0 "") ∨ badChunk c ((goSplit v '|').getD 1 "") ∨
        badChunk c ((goSplit v '|').getD 2 "") ∨ badChunk c ((goSplit v '|').getD 3 "") ∨
        badChunk c ((goSplit v '|').getD 5 ""))) ∧
    (∀ s2, DecodeSessionState v (some c) = some s2 →
      ((goSplit v '|').getD 0 "" = "" → s2.Email = "") ∧
      ((goSplit v '|').getD 1 "" = "" → s2.User = "") ∧
      ((goSplit v '|').getD 2 "" = "" → s2.AccessToken = "") ∧
      ((goSplit v '|').getD 3 "" = "" → s2.IDToken = "") ∧
      ((goSplit v '|').getD 4 "" = "" → s2.ExpiresOn = ⟨0, 0⟩) ∧
      ((goSplit v '|').getD 5 "" = "" → s2.RefreshToken = "")) := by
  rw [show DecodeSessionState v (some c) = decodeChunks c (goSplit v '|') from rfl]
  generalize goSplit v '|' = l
  rcases l with _ | ⟨x0, _ | ⟨x1, _ | ⟨x2, _ | ⟨x3, _ | ⟨x4, _ |
    ⟨x5, _ | ⟨x6, rest⟩⟩⟩⟩⟩⟩⟩
  · simp [decodeChunks]
  · simp [decodeChunks]
  · simp [decodeChunks]
  · simp [decodeChunks]
  · simp [decodeChunks]
  · simp [decodeChunks]
  · constructor
    · rw [decodeChunks_six_none]
      simp only [List.length_cons, List.length_nil, List.getD_cons_zero,
        List.getD_cons_succ, ← decField_none_iff]
      tauto
    · intro s2 h
      obtain ⟨h0, h1, h2, h3, h5, h4⟩ := decodeChunks_six_some c x0 x1 x2 x3 x4 x5 s2 h
      simp only [List.getD_cons_zero, List.getD_cons_succ]
      refine ⟨?_, ?_, ?_, ?_, ?_, ?_⟩
      · intro he; rw [he] at h0; simpa [decField] using h0.symm
      · intro he; rw [he] at h1; simpa [decField] using h1.symm
      · intro he; rw [he] at h2; simpa [decField] using h2.symm
      · intro he; rw [he] at h3; simpa [decField] using h3.symm
      · intro he; rw [he] at h4; simpa using h4
      · intro he; rw [he] at h5; simpa [decField] using h5.symm
  · constructor
    · simp only [decodeChunks, List.length_cons]
      constructor
      · intro _
        left
        omega
      · intro _
        trivial
    · intro s2 h
      exact absurd h (by simp [decodeChunks])

theorem goAtoi_eq_zero_of_not_int (s : String) (h : isIntStr s = false) :
    goAtoi s = 0 := by
  unfold goAtoi atoiL
  unfold isIntStr at h
  rcases hd : s.data with _ | ⟨c, rest⟩
  · rfl
  · rw [hd] at h
    by_cases h1 : c = '-'
    · simp only [h1, if_true] at h ⊢
      rcases hv : digitsVal rest with _ | n
      · rfl
      · rw [hv] at h; simp at h
    · by_cases h2 : c = '+'
      · simp only [h1, h2, if_false, if_true] at h ⊢
        rcases hv : digitsVal rest with _ | n
        · rfl
        · rw [hv] at h; simp at h
      · simp only [h1, h2, if_false] at h ⊢
        rcases hv : digitsVal (c :: rest) with _ | n
        · rfl
        · rw [hv] at h; simp at h

/-- Claim C10: for every 6-field input, Decode's success never depends on the
5th (timestamp) field: success is equivalent to the five textual chunks being
acceptable; a non-numeric timestamp chunk is silently parsed as 0; and a
decoded timestamp of 0 is `time.Unix(0,0)`, which is not the zero time, so
`IsExpired` at any instant after the 1970 epoch answers true rather than
treating the session as having no expiry. -/
theorem claim_C10 (c : Cipher) (v : String) (h6 : (goSplit v '|').length = 6) :
    ((DecodeSessionState v (some c)).isSome ↔
      (chunkOK c ((goSplit v '|').getD 0 "") ∧ chunkOK c ((goSplit v '|').getD 1 "") ∧
       chunkOK c ((goSplit v '|').getD 2 "") ∧ chunkOK c ((goSplit v '|').getD 3 "") ∧
       chunkOK c ((goSplit v '|').getD 5 ""))) ∧
    (∀ s2, DecodeSessionState v (some c) = some s2 →
      s2.ExpiresOn = ⟨goAtoi ((goSplit v '|').getD 4 ""), 0⟩ ∧
      (isIntStr ((goSplit v '|').getD 4 "") = false → s2.ExpiresOn = ⟨0, 0⟩) ∧
      ((goSplit v '|').getD 4 "" = "0" →
        s2.ExpiresOn.IsZero = false ∧
        ∀ now, GoTime.Before ⟨0, 0⟩ now = true → IsExpired s2 now = true)) := by
  rw [show DecodeSessionState v (some c) = decodeChunks c (goSplit v '|') from rfl]
  generalize hl : goSplit v '|' = l
  rw [hl] at h6
  rcases l with _ | ⟨x0, _ | ⟨x1, _ | ⟨x2, _ | ⟨x3, _ | ⟨x4, _ |
    ⟨x5, _ | ⟨x6, rest⟩⟩⟩⟩⟩⟩⟩ <;> simp only [List.length_cons, List.length_nil] at h6 <;>
    try omega
  constructor
  · have hnone := decodeChunks_six_none c x0 x1 x2 x3 x4 x5
    simp only [List.getD_cons_zero, List.getD_cons_succ]
    rw [← Option.ne_none_iff_isSome, ne_eq, hnone]
    simp only [decField_none_iff, badChunk, chunkOK]
    push_neg
    constructor
    · rintro ⟨h0, h1, h2, h3, h5⟩
      refine ⟨?_, ?_, ?_, ?_, ?_⟩
      · by_cases hx : x0 = ""
        · exact Or.inl hx
        · exact Or.inr (Option.ne_none_iff_isSome.mp (h0 hx))
      · by_cases hx : x1 = ""
        · exact Or.inl hx
        · exact Or.inr (Option.ne_none_iff_isSome.mp (h1 hx))
      · by_cases hx : x2 = ""
        · exact Or.inl hx
        · exact Or.inr (Option.ne_none_iff_isSome.mp (h2 hx))
      · by_cases hx : x3 = ""
        · exact Or.inl hx
        · exact Or.inr (Option.ne_none_iff_isSome.mp (h3 hx))
      · by_cases hx : x5 = ""
        · exact Or.inl hx
        · exact Or.inr (Option.ne_none_iff_isSome.mp (h5 hx))
    · rintro ⟨h0, h1, h2, h3, h5⟩
      refine ⟨?_, ?_, ?_, ?_, ?_⟩ <;> intro hx
      · rcases h0 with h | h
        · exact absurd h hx
        · exact Option.ne_none_iff_isSome.mpr h
      · rcases h1 with h | h
        · exact absurd h hx
        · exact Option.ne_none_iff_isSome.mpr h
      · rcases h2 with h | h
        · exact absurd h hx
        · exact Option.ne_none_iff_isSome.mpr h
      · rcases h3 with h | h
        · exact absurd h hx
        · exact Option.ne_none_iff_isSome.mpr h
      · rcases h5 with h | h
        · exact absurd h hx
        · exact Option.ne_none_iff_isSome.mpr h
  · intro s2 h
    obtain ⟨_, _, _, _, _, h4⟩ := decodeChunks_six_some c x0 x1 x2 x3 x4 x5 s2 h
    simp only [List.getD_cons_zero, List.getD_cons_succ]
    refine ⟨h4, ?_, ?_⟩
    · intro hbad
      rw [h4, goAtoi_eq_zero_of_not_int x4 hbad]
    · rintro rfl
      refine ⟨by rw [h4]; decide, ?_⟩
      intro now hb
      show (!GoTime.IsZero s2.ExpiresOn && GoTime.Before s2.ExpiresOn now) = true
      rw [h4]
      show (!GoTime.IsZero ⟨0, 0⟩ && GoTime.Before ⟨0, 0⟩ now) = true
      rw [hb]
      decide

/-! ### Concrete witnesses for the codec claims -/

/-- A concrete wire-safe cipher for witnesses: prepend a marker character on
encryption, drop the first character on decryption. -/
def dropCipher : Cipher :=
  ⟨fun x => some ("E" ++ x), fun y => some ⟨y.data.drop 1⟩⟩

/-- Concrete session exercising the amended claim C1. -/
def c1WitSession : SessionState :=
  { AccessToken := "tok", IDToken := "id", ExpiresOn := ⟨77, 5⟩,
    RefreshToken := "ref", Email := "a@b.c", User := "u1" }

/-- Witness for claim C1 (amended): all hypotheses hold at a concrete session
and cipher, and the round trip reproduces the fields. -/
theorem claim_C1_amended_witness :
    c1WitSession.AccessToken ≠ "" ∧
    GoodFor dropCipher c1WitSession.Email ∧
    GoodFor dropCipher (userOrLocal c1WitSession) ∧
    GoodFor dropCipher c1WitSession.AccessToken ∧
    GoodFor dropCipher c1WitSession.IDToken ∧
    GoodFor dropCipher c1WitSession.RefreshToken ∧
    (∃ v s2, EncodeSessionState c1WitSession (some dropCipher) = some v ∧
      DecodeSessionState v (some dropCipher) = some s2 ∧
      s2.Email = c1WitSession.Email ∧ s2.User = userOrLocal c1WitSession ∧
      s2.AccessToken = c1WitSession.AccessToken ∧
      s2.IDToken = c1WitSession.IDToken ∧
      s2.ExpiresOn.unix = c1WitSession.ExpiresOn.unix ∧
      s2.RefreshToken = c1WitSession.RefreshToken) := by
  have hE : GoodFor dropCipher c1WitSession.Email :=
    Or.inr ⟨"Ea@b.c", by decide, by decide, by decide, by decide⟩
  have hU : GoodFor dropCipher (userOrLocal c1WitSession) :=
    Or.inr ⟨"Eu1", by decide, by decide, by decide, by decide⟩
  have hA : GoodFor dropCipher c1WitSession.AccessToken :=
    Or.inr ⟨"Etok", by decide, by decide, by decide, by decide⟩
  have hI : GoodFor dropCipher c1WitSession.IDToken :=
    Or.inr ⟨"Eid", by decide, by decide, by decide, by decide⟩
  have hR : GoodFor dropCipher c1WitSession.RefreshToken :=
    Or.inr ⟨"Eref", by decide, by decide, by decide, by decide⟩
  exact ⟨by decide, hE, hU, hA, hI, hR,
    claim_C1_amended dropCipher c1WitSession (by decide) hE hU hA hI hR⟩

/-- The session decoded in the claim C3 witness. -/
def c3WitDecoded : SessionState :=
  { AccessToken := "t", IDToken := "", ExpiresOn := ⟨5, 0⟩,
    RefreshToken := "", Email := "a", User := "" }

/-- Witness for claim C3: a successful decode at a concrete cipher, with the
empty-slot clause instantiated. -/
theorem claim_C3_witness :
    DecodeSessionState "Ea||Et||5|" (some dropCipher) = some c3WitDecoded ∧
    c3WitDecoded.User = "" := by
  refine ⟨by decide, ?_⟩
  exact ((claim_C3 dropCipher "Ea||Et||5|").2 _ (by decide)).2.1 (by decide)

/-- Concrete plain-format session for claim C8. -/
def c8WitSession : SessionState :=
  { AccessToken := "", IDToken := "", ExpiresOn := goZeroTime,
    RefreshToken := "", Email := "e@x", User := "u" }

/-- Witness for claim C8: plain encode of a concrete session, and plain decode
deriving User from the Email local part. -/
theorem claim_C8_witness :
    EncodeSessionState c8WitSession none
      = some ("email:" ++ "e@x" ++ " user:" ++ "u") ∧
    DecodeSessionState "email:e@x user:" none
      = some { AccessToken := "", IDToken := "", ExpiresOn := goZeroTime,
               RefreshToken := "", Email := "e@x", User := "e" } := by
  exact ⟨(claim_C8 c8WitSession none "email:e@x user:").1 (Or.inl rfl), by decide⟩

/-- The session decoded in the claim C10 witness. -/
def c10WitDecoded : SessionState :=
  { AccessToken := "c", IDToken := "d", ExpiresOn := ⟨0, 0⟩,
    RefreshToken := "e", Email := "a", User := "b" }

/-- Witness for claim C10: a 6-field input whose timestamp chunk is not a
number decodes successfully to `time.Unix(0,0)`, which is not the zero time
and is reported expired. -/
theorem claim_C10_witness :
    (goSplit "a|b|c|d|zz|e" '|').length = 6 ∧
    isIntStr "zz" = false ∧
    DecodeSessionState "a|b|c|d|zz|e" (some idCipher) = some c10WitDecoded ∧
    GoTime.IsZero ⟨0, 0⟩ = false ∧
    IsExpired c10WitDecoded ⟨1, 0⟩ = true ∧
    c10WitDecoded.ExpiresOn = ⟨0, 0⟩ := by
  refine ⟨by decide, by decide, by decide, by decide, by decide, ?_⟩
  exact ((claim_C10 idCipher "a|b|c|d|zz|e" (by decide)).2 _ (by decide)).2.1 (by decide)

/-!
## Part 2: the OIDC provider layer

The implementations of the token verifier, claims normalizer, enrichment
pipeline and refresh controller are repository code whose source files are not
among the sources under study — only their tests are.  They are therefore
modelled from the specification (and pinned, where the tests are explicit,
to the behaviour the repository's own tests assert).
-/

/-- A decoded JSON claim value (spec §9: the closed variant of claim
shapes). -/
inductive JSONValue where
  | null : JSONValue
  | bool : Bool → JSONValue
  | num : Int → JSONValue
  | str : String → JSONValue
  | arr : List JSONValue → JSONValue
  | obj : List (String × JSONValue) → JSONValue

/-- Join strings with a separator. -/
def joinWith (sep : String) : List String → String
  | [] => ""
  | [x] => x
  | x :: y :: xs => x ++ sep ++ joinWith sep (y :: xs)

/-- Escape one character for a JSON string literal. -/
def escChar (ch : Char) : String :=
  if ch = '"' then "\\\"" else if ch = '\\' then "\\\\" else String.singleton ch

/-- A JSON string literal. -/
def jsonQuote (s : String) : String :=
  "\"" ++ String.join (s.data.map escChar) ++ "\""

/-- Lexicographic ≤ on character lists by code point (the key order of Go's
`json.Marshal` for the keys occurring here). -/
def lexLe : List Char → List Char → Bool
  | [], _ => true
  | _ :: _, [] => false
  | x :: xs, y :: ys =>
    if x.toNat < y.toNat then true
    else if x.toNat = y.toNat then lexLe xs ys
    else false

/-- Insert a rendered key/value pair keeping keys ascending. -/
def insPair (p : String × String) : List (String × String) → List (String × String)
  | [] => [p]
  | q :: rest => if lexLe p.1.data q.1.data then p :: q :: rest else q :: insPair p rest

/-- Sort rendered key/value pairs by key (stable insertion sort), giving the
canonical stable key order of the compact serialization. -/
def sortPairs : List (String × String) → List (String × String)
  | [] => []
  | p :: rest => insPair p (sortPairs rest)

mutual

/-- Compact canonical JSON serialization; object keys are emitted in sorted
order, as Go `json.Marshal` does for maps. -/
def serialize : JSONValue → String
  | .null => "null"
  | .bool b => if b then "true" else "false"
  | .num n => intToStr n
  | .str s => jsonQuote s
  | .arr xs => "[" ++ joinWith "," (serializeList xs) ++ "]"
  | .obj kvs =>
      "\x7b" ++ joinWith ","
        ((sortPairs (serializeVals kvs)).map fun p => jsonQuote p.1 ++ ":" ++ p.2)
        ++ "\x7d"

/-- Serialize every element of a JSON array. -/
def serializeList : List JSONValue → List String
  | [] => []
  | v :: rest => serialize v :: serializeList rest

/-- Render every field value of a JSON object, keeping its key. -/
def serializeVals : List (String × JSONValue) → List (String × String)
  | [] => []
  | (k, v) :: rest => (k, serialize v) :: serializeVals rest

end

/-- Look a claim up in a decoded claim map. -/
def lookupClaim (claims : List (String × JSONValue)) (name : String) : Option JSONValue :=
  match claims with
  | [] => none
  | (k, v) :: rest => if k = name then some v else lookupClaim rest name

/-- Modelled from the spec: §4.1 ClaimsNormalizer `ExtractEmail` — direct
string lookup; not-found if the key is absent or the value is not a string. -/
def extractEmail (claims : List (String × JSONValue)) (name : String) : Option String :=
  match lookupClaim claims name with
  | some (.str e) => some e
  | _ => none

/-- A single group entry: strings are taken verbatim, any other shape is
re-serialized to its canonical compact string. -/
def formatGroup : JSONValue → String
  | .str s => s
  | v => serialize v

/-- Modelled from the spec: §4.1 ClaimsNormalizer `ExtractGroups` — `none`
when the key is absent (found=false); a list maps each element through
`formatGroup` preserving order (so an explicit empty list gives found=true
with a zero-length result); any single value becomes a one-element list. -/
def extractGroups (claims : List (String × JSONValue)) (name : String) :
    Option (List String) :=
  match lookupClaim claims name with
  | none => none
  | some (.arr xs) => some (xs.map formatGroup)
  | some v => some [formatGroup v]

/-! ### TokenVerifier (spec §4.2) -/

/-- The verification options record (spec §3): `ClientID`, the configurable
audience claim name, and the extra accepted audiences in configured order. -/
structure IDTokenVerificationOptions where
  AudienceClaim : String
  ClientID : String
  ExtraAudiences : List String

/-- The accepted audience set, ClientID first then ExtraAudiences in
configured order. -/
def allowedAudiences (o : IDTokenVerificationOptions) : List String :=
  o.ClientID :: o.ExtraAudiences

/-- Modelled from the spec: §4.2 — the audience step of `Verify`, reached
once the delegated signature check has passed and given the decoded payload.
Reads the claim named `AudienceClaim`; succeeds when its value is in the
accepted set; otherwise fails with the deterministic message the repository's
verifier tests expect.  (The absent-claim branch is outside the spec's
description and is an error here.) -/
def verifyAudience (o : IDTokenVerificationOptions)
    (payload : List (String × JSONValue)) : Except String Unit :=
  match lookupClaim payload o.AudienceClaim with
  | some (.str v) =>
      if v ∈ allowedAudiences o then Except.ok ()
      else Except.error ("audience from claim " ++ o.AudienceClaim ++ " with value "
        ++ v ++ " does not match with any of allowed audiences ["
        ++ joinWith " " (allowedAudiences o) ++ "]")
  | _ => Except.error ("audience claim " ++ o.AudienceClaim ++ " not found")

/-! ### Session, EnrichmentPipeline and RefreshController (spec §3, §4.4, §4.5) -/

/-- The provider-layer session record (spec §3 Data Model): `Groups` is
`none` when not yet populated and `some []` when explicitly empty — distinct
states; `IntrospectClaims` is the opaque canonicalized introspection blob. -/
structure Session where
  AccessToken : String
  IDToken : String
  RefreshToken : String
  Email : String
  User : String
  Groups : Option (List String)
  ExpiresOn : Option GoTime
  CreatedAt : Option GoTime
  IntrospectClaims : String
deriving DecidableEq, Repr

/-- The provider configuration the enrichment steps read. -/
structure OIDCConfig where
  EmailClaim : String
  GroupsClaim : String

/-- Modelled from the spec: §4.4 — the Email fill-only step of
`EnrichSession`: set Email from the profile claims only if currently empty. -/
def fillEmail (cfg : OIDCConfig) (profile : List (String × JSONValue))
    (s : Session) : Session :=
  if s.Email = "" then
    match extractEmail profile cfg.EmailClaim with
    | some e => { s with Email := e }
    | none => s
  else s

/-- Modelled from the spec: §4.4 — the Groups fill-only step of
`EnrichSession`: adopt the claim result only if Groups is currently `nil`. -/
def fillGroups (cfg : OIDCConfig) (profile : List (String × JSONValue))
    (s : Session) : Session :=
  if s.Groups = none then
    match extractGroups profile cfg.GroupsClaim with
    | some gs => { s with Groups := some gs }
    | none => s
  else s

/-- Modelled from the spec: §4.4 — store the canonicalized introspection
response when one was obtained; its absence or failure (`none`) is tolerated
and never a cause of pipeline failure. -/
def storeIntrospection (ic : Option String) (s : Session) : Session :=
  match ic with
  | some blob => { s with IntrospectClaims := blob }
  | none => s

/-- The final Email check of `EnrichSession`: the domain error (with the
message the repository's tests assert) when no source yielded an email; the
partially-filled session remains in either case. -/
def enrichResult (s3 : Session) : Session × Option String :=
  if s3.Email = "" then
    (s3, some "neither the id_token nor the profileURL set an email")
  else (s3, none)

/-- Modelled from the spec: §4.4 `EnrichSession`, given the decoded profile
claims and the canonicalized introspection blob (if any).  Returns the
mutated session together with the domain error, mutating field by field so a
late failure leaves earlier fills applied (spec §5's documented partial-success
contract, and the behaviour the repository's EnrichSession tests assert). -/
def EnrichSession (cfg : OIDCConfig) (profile : List (String × JSONValue))
    (ic : Option String) (s : Session) : Session × Option String :=
  enrichResult (storeIntrospection ic (fillGroups cfg profile (fillEmail cfg profile s)))

/-- A successful token-endpoint refresh answer: an empty `refresh` means no
new refresh token was returned, `idToken` is the optional new identity
token. -/
structure TokenResponse where
  access : String
  refresh : String
  expires : Option GoTime
  idToken : Option String

/-- The result of re-verifying and normalizing a new identity token. -/
structure IDTokenInfo where
  email : String
  user : String
  groups : Option (List String)

/-- Modelled from the spec: §4.5 — the update applied on a refresh the token
endpoint answered successfully: AccessToken replaced; RefreshToken replaced
only when a new one is returned; with a new identity token, Email/User/Groups
fully replaced from its re-verified claims; without one, they are preserved. -/
def applyRefresh (resp : TokenResponse) (verifyNorm : String → IDTokenInfo)
    (s : Session) : Session :=
  let s1 := { s with AccessToken := resp.access,
                     ExpiresOn := resp.expires,
                     RefreshToken := if resp.refresh = "" then s.RefreshToken
                                     else resp.refresh }
  match resp.idToken with
  | some t =>
      { s1 with IDToken := t, Email := (verifyNorm t).email,
                User := (verifyNorm t).user, Groups := (verifyNorm t).groups }
  | none => s1

/-- The refresh controller's no-op gate: skip when RefreshToken is absent, or
when ExpiresOn is set and still in the future.  (An *unset* ExpiresOn does
not suppress the refresh: the repository's test
`TestOIDCProviderRefreshSessionIfNeededWithoutIdToken` passes a session with
`ExpiresOn: nil` and asserts `refreshed == true`.) -/
def needsNoRefresh (now : GoTime) (s : Session) : Bool :=
  s.RefreshToken = "" ||
    (match s.ExpiresOn with
     | some t => now.Before t
     | none => false)

/-- Modelled from the spec: §4.5 `RefreshSessionIfNeeded`, with the staleness
gate pinned to the repository's test (see `needsNoRefresh`).  In the no-op
case it returns `(false, s)` without consulting the upstream response at all
(zero network calls). -/
def RefreshSessionIfNeeded (now : GoTime) (resp : TokenResponse)
    (verifyNorm : String → IDTokenInfo) (s : Session) : Bool × Session :=
  if needsNoRefresh now s then (false, s)
  else (true, applyRefresh resp verifyNorm s)

/-! ### Claim C2: the audience check -/

/-- Claim C2: once the delegated signature check has passed and the configured
audience claim is present with string value `v`, Verify succeeds iff `v` is a
member of {ClientID} ∪ ExtraAcceptedAudiences; otherwise it fails with the
deterministic message naming the claim, the value, and the accepted set
listed with ClientID first followed by ExtraAudiences in configured order. -/
theorem claim_C2 (o : IDTokenVerificationOptions)
    (payload : List (String × JSONValue)) (v : String)
    (hv : lookupClaim payload o.AudienceClaim = some (.str v)) :
    (verifyAudience o payload = Except.ok () ↔
      (v = o.ClientID ∨ v ∈ o.ExtraAudiences)) ∧
    (v ∉ allowedAudiences o →
      verifyAudience o payload = Except.error ("audience from claim "
        ++ o.AudienceClaim ++ " with value " ++ v
        ++ " does not match with any of allowed audiences ["
        ++ joinWith " " (o.ClientID :: o.ExtraAudiences) ++ "]")) := by
  have hred : verifyAudience o payload
      = (if v ∈ allowedAudiences o then Except.ok ()
         else Except.error ("audience from claim " ++ o.AudienceClaim
           ++ " with value " ++ v
           ++ " does not match with any of allowed audiences ["
           ++ joinWith " " (allowedAudiences o) ++ "]")) := by
    unfold verifyAudience
    rw [hv]
  rw [hred]
  constructor
  · constructor
    · intro h
      by_cases hm : v ∈ allowedAudiences o
      · simpa [allowedAudiences] using hm
      · rw [if_neg hm] at h
        exact absurd h (by simp)
    · intro h
      have hm : v ∈ allowedAudiences o := by simpa [allowedAudiences] using h
      rw [if_pos hm]
  · intro hm
    rw [if_neg hm]
    rfl

/-- The decoded payload of the repository's verifier test token. -/
def c2Payload : List (String × JSONValue) :=
  [("iss", .str "https://foo"), ("aud", .str "1226737")]

/-- Witness for claim C2 at the repository verifier test's values: the exact
failure message for ClientID 7817818 with ExtraAudiences [xyz, abc], and
success once 1226737 is among the extra audiences. -/
theorem claim_C2_witness :
    lookupClaim c2Payload "aud" = some (.str "1226737") ∧
    ("1226737" : String) ∉ allowedAudiences ⟨"aud", "7817818", ["xyz", "abc"]⟩ ∧
    verifyAudience ⟨"aud", "7817818", ["xyz", "abc"]⟩ c2Payload
      = Except.error "audience from claim aud with value 1226737 does not match with any of allowed audiences [7817818 xyz abc]" ∧
    verifyAudience ⟨"aud", "7817818", ["xyz", "1226737"]⟩ c2Payload = Except.ok () := by
  refine ⟨rfl, by decide, ?_, ?_⟩
  · exact (claim_C2 ⟨"aud", "7817818", ["xyz", "abc"]⟩ c2Payload "1226737" rfl).2
      (by decide)
  · exact (claim_C2 ⟨"aud", "7817818", ["xyz", "1226737"]⟩ c2Payload "1226737" rfl).1.mpr
      (by decide)

/-! ### Claims C4 and C7: EnrichSession -/

theorem fillEmail_eq (cfg : OIDCConfig) (profile : List (String × JSONValue))
    (s : Session) : ∃ e, fillEmail cfg profile s = { s with Email := e } := by
  unfold fillEmail
  split
  · rcases hx : extractEmail profile cfg.EmailClaim with _ | e
    · exact ⟨s.Email, rfl⟩
    · exact ⟨e, rfl⟩
  · exact ⟨s.Email, rfl⟩

theorem fillGroups_eq (cfg : OIDCConfig) (profile : List (String × JSONValue))
    (s : Session) : ∃ g, fillGroups cfg profile s = { s with Groups := g } := by
  unfold fillGroups
  split
  · rcases hx : extractGroups profile cfg.GroupsClaim with _ | gs
    · exact ⟨s.Groups, rfl⟩
    · exact ⟨some gs, rfl⟩
  · exact ⟨s.Groups, rfl⟩

theorem storeIntrospection_eq (ic : Option String) (s : Session) :
    ∃ b, storeIntrospection ic s = { s with IntrospectClaims := b } := by
  unfold storeIntrospection
  rcases ic with _ | blob
  · exact ⟨s.IntrospectClaims, rfl⟩
  · exact ⟨blob, rfl⟩

theorem enrichResult_fst (s3 : Session) : (enrichResult s3).1 = s3 := by
  unfold enrichResult
  split <;> rfl

/-- Claim C4: EnrichSession adopts the normalized groups claim result only
when the session's Groups is nil before the call; whenever Groups is non-nil
beforehand (including the explicit empty list), it is identical afterwards,
regardless of what the profile endpoint returned. -/
theorem claim_C4 (cfg : OIDCConfig) (profile : List (String × JSONValue))
    (ic : Option String) (s : Session) :
    (s.Groups ≠ none → (EnrichSession cfg profile ic s).1.Groups = s.Groups) ∧
    (s.Groups = none →
      (EnrichSession cfg profile ic s).1.Groups
        = extractGroups profile cfg.GroupsClaim) := by
  have hfst : (EnrichSession cfg profile ic s).1
      = storeIntrospection ic (fillGroups cfg profile (fillEmail cfg profile s)) := by
    unfold EnrichSession
    exact enrichResult_fst _
  obtain ⟨b, hb⟩ := storeIntrospection_eq ic (fillGroups cfg profile (fillEmail cfg profile s))
  have hstore : (storeIntrospection ic (fillGroups cfg profile (fillEmail cfg profile s))).Groups
      = (fillGroups cfg profile (fillEmail cfg profile s)).Groups := by
    rw [hb]
  obtain ⟨e, he⟩ := fillEmail_eq cfg profile s
  have hG1 : (fillEmail cfg profile s).Groups = s.Groups := by rw [he]
  constructor
  · intro hg
    rw [hfst, hstore]
    unfold fillGroups
    rw [hG1, if_neg hg]
    exact hG1
  · intro hg
    rw [hfst, hstore]
    unfold fillGroups
    rw [hG1, if_pos hg]
    rcases hx : extractGroups profile cfg.GroupsClaim with _ | gs
    · rw [hG1]
      exact hg
    · rfl

/-- Session with explicitly empty Groups, as in the repository test
"Empty Groups Claims". -/
def c4Session : Session :=
  { AccessToken := "atok", IDToken := "itok", RefreshToken := "rtok",
    Email := "already@populated.com", User := "already", Groups := some [],
    ExpiresOn := none, CreatedAt := none, IntrospectClaims := "" }

/-- A profile answer carrying both an email and groups. -/
def c4Profile : List (String × JSONValue) :=
  [("email", .str "new@thing.com"), ("groups", .arr [.str "new", .str "thing"])]

/-- Witness for claim C4: explicit-empty Groups survive enrichment untouched
even though the profile endpoint returns ["new","thing"]. -/
theorem claim_C4_witness :
    c4Session.Groups ≠ none ∧
    extractGroups c4Profile "groups" = some ["new", "thing"] ∧
    (EnrichSession ⟨"email", "groups"⟩ c4Profile (some "eyJhY3RpdmUiOnRydWV9") c4Session).1.Groups
      = some [] := by
  refine ⟨by decide, rfl, ?_⟩
  exact ((claim_C4 ⟨"email", "groups"⟩ c4Profile (some "eyJhY3RpdmUiOnRydWV9")
    c4Session).1 (by decide)).trans rfl

/-- Claim C7 (amended): when the session's Email is empty and no source
yields one, EnrichSession returns the domain error and Email is still empty,
with the credential and identity fields (User, AccessToken, IDToken,
RefreshToken, ExpiresOn, CreatedAt) unchanged; fills already applied before
the failure (Groups adoption, IntrospectClaims) persist, per the documented
field-by-field partial-success contract. -/
theorem claim_C7_amended (cfg : OIDCConfig) (profile : List (String × JSONValue))
    (ic : Option String) (s : Session)
    (hE : s.Email = "") (hnone : extractEmail profile cfg.EmailClaim = none) :
    (EnrichSession cfg profile ic s).2
        = some "neither the id_token nor the profileURL set an email" ∧
    (EnrichSession cfg profile ic s).1.Email = "" ∧
    (EnrichSession cfg profile ic s).1.User = s.User ∧
    (EnrichSession cfg profile ic s).1.AccessToken = s.AccessToken ∧
    (EnrichSession cfg profile ic s).1.IDToken = s.IDToken ∧
    (EnrichSession cfg profile ic s).1.RefreshToken = s.RefreshToken ∧
    (EnrichSession cfg profile ic s).1.ExpiresOn = s.ExpiresOn ∧
    (EnrichSession cfg profile ic s).1.CreatedAt = s.CreatedAt := by
  have h1 : fillEmail cfg profile s = s := by
    unfold fillEmail
    rw [if_pos hE, hnone]
  obtain ⟨g, h2⟩ := fillGroups_eq cfg profile s
  obtain ⟨b, h3⟩ := storeIntrospection_eq ic { s with Groups := g }
  have hs3 : storeIntrospection ic (fillGroups cfg profile (fillEmail cfg profile s))
      = { s with Groups := g, IntrospectClaims := b } := by
    rw [h1, h2, h3]
  have hE4 : EnrichSession cfg profile ic s
      = ({ s with Groups := g, IntrospectClaims := b },
         some "neither the id_token nor the profileURL set an email") := by
    unfold EnrichSession enrichResult
    rw [hs3, if_pos (show Session.Email { s with Groups := g, IntrospectClaims := b } = "" from hE)]
  rw [hE4]
  exact ⟨rfl, hE, rfl, rfl, rfl, rfl, rfl, rfl⟩

/-- Session of the repository test "Missing Email not in Profile URL": empty
Email, populated Groups, no introspection blob yet. -/
def c7Session : Session :=
  { AccessToken := "atok", IDToken := "itok", RefreshToken := "rtok",
    Email := "", User := "missing.email", Groups := some ["already", "populated"],
    ExpiresOn := none, CreatedAt := none, IntrospectClaims := "" }

/-- Profile answer of that test: groups but no email claim. -/
def c7Profile : List (String × JSONValue) :=
  [("groups", .arr [.str "new", .str "thing"])]

/-- Claim C7 counterexample: mirroring the test "Missing Email not in Profile
URL" — enrichment fails with the domain error, yet IntrospectClaims was
mutated from "" to the canonicalized introspection blob, so not every other
session field is unchanged after the failed call. -/
theorem claim_C7_counterexample :
    c7Session.Email = "" ∧ c7Session.IntrospectClaims = "" ∧
    (EnrichSession ⟨"email", "groups"⟩ c7Profile (some "eyJhY3RpdmUiOnRydWV9") c7Session).2
      = some "neither the id_token nor the profileURL set an email" ∧
    (EnrichSession ⟨"email", "groups"⟩ c7Profile (some "eyJhY3RpdmUiOnRydWV9") c7Session).1.IntrospectClaims
      = "eyJhY3RpdmUiOnRydWV9" := by
  exact ⟨rfl, rfl, by decide, by decide⟩

/-- Witness for claim C7 (amended) at the same concrete test data. -/
theorem claim_C7_amended_witness :
    c7Session.Email = "" ∧
    extractEmail c7Profile "email" = none ∧
    (EnrichSession ⟨"email", "groups"⟩ c7Profile (some "eyJhY3RpdmUiOnRydWV9") c7Session).2
      = some "neither the id_token nor the profileURL set an email" ∧
    (EnrichSession ⟨"email", "groups"⟩ c7Profile (some "eyJhY3RpdmUiOnRydWV9") c7Session).1.User
      = c7Session.User := by
  refine ⟨rfl, rfl, ?_, ?_⟩
  · exact (claim_C7_amended ⟨"email", "groups"⟩ c7Profile
      (some "eyJhY3RpdmUiOnRydWV9") c7Session rfl rfl).1
  · exact (claim_C7_amended ⟨"email", "groups"⟩ c7Profile
      (some "eyJhY3RpdmUiOnRydWV9") c7Session rfl rfl).2.2.1

/-! ### Claims C5 and C6: the refresh controller -/

/-- Claim C5 (amended): RefreshSessionIfNeeded returns `(false, s)` — the
session untouched and the upstream response never consulted (the result is
the same for every response and verifier, hence zero network calls) — when
RefreshToken is absent, or when ExpiresOn is *set and* lies in the future.
Contrary to the claim's wording, an unset ExpiresOn does not suppress the
refresh. -/
theorem claim_C5_amended (now : GoTime) (resp : TokenResponse)
    (vn : String → IDTokenInfo) (s : Session)
    (h : s.RefreshToken = "" ∨ ∃ t, s.ExpiresOn = some t ∧ now.Before t = true) :
    RefreshSessionIfNeeded now resp vn s = (false, s) := by
  have hc : needsNoRefresh now s = true := by
    unfold needsNoRefresh
    rcases h with h | ⟨t, ht, hb⟩
    · simp [h]
    · rw [ht]
      simp [hb]
  simp [RefreshSessionIfNeeded, hc]

/-- The session of the repository test
`TestOIDCProviderRefreshSessionIfNeededWithoutIdToken`: a refresh token is
present and ExpiresOn is unset. -/
def c5Session : Session :=
  { AccessToken := "changeit", IDToken := "idtok", RefreshToken := "refresh",
    Email := "janedoe@example.com", User := "11223344", Groups := none,
    ExpiresOn := none, CreatedAt := none, IntrospectClaims := "" }

/-- The token-endpoint answer of that test (new access token, same refresh
token, no identity token). -/
def c5Resp : TokenResponse :=
  { access := "access", refresh := "refresh", expires := none, idToken := none }

/-- A verifier stand-in (never consulted: the response has no id token). -/
def c5Verify : String → IDTokenInfo := fun _ => ⟨"", "", none⟩

/-- Claim C5 counterexample: with ExpiresOn unset and a refresh token present
— a case where the claim predicts `(false, nil)` and no work — the refresh
proceeds: it reports `true` and replaces the access token, exactly as the
repository's own test asserts (`refreshed == true`). -/
theorem claim_C5_counterexample :
    c5Session.ExpiresOn = none ∧
    c5Session.RefreshToken ≠ "" ∧
    (RefreshSessionIfNeeded ⟨0, 0⟩ c5Resp c5Verify c5Session).1 = true ∧
    (RefreshSessionIfNeeded ⟨0, 0⟩ c5Resp c5Verify c5Session).2.AccessToken = "access" ∧
    (RefreshSessionIfNeeded ⟨0, 0⟩ c5Resp c5Verify c5Session).2.Email = "janedoe@example.com" := by
  exact ⟨rfl, by decide, by decide, by decide, by decide⟩

/-- Witness for claim C5 (amended): a session with no refresh token is left
untouched with `(false, ·)`, and so is one whose expiry is in the future. -/
theorem claim_C5_amended_witness :
    ((Session.RefreshToken { c5Session with RefreshToken := "" } = "" ∨
      ∃ t, Session.ExpiresOn { c5Session with RefreshToken := "" } = some t ∧
        GoTime.Before ⟨0, 0⟩ t = true) ∧
     RefreshSessionIfNeeded ⟨0, 0⟩ c5Resp c5Verify { c5Session with RefreshToken := "" }
       = (false, { c5Session with RefreshToken := "" })) ∧
    RefreshSessionIfNeeded ⟨0, 0⟩ c5Resp c5Verify { c5Session with ExpiresOn := some ⟨9, 0⟩ }
      = (false, { c5Session with ExpiresOn := some ⟨9, 0⟩ }) := by
  refine ⟨⟨Or.inl rfl, ?_⟩, ?_⟩
  · exact claim_C5_amended ⟨0, 0⟩ c5Resp c5Verify _ (Or.inl rfl)
  · exact claim_C5_amended ⟨0, 0⟩ c5Resp c5Verify _ (Or.inr ⟨⟨9, 0⟩, rfl, by decide⟩)

/-- Claim C6: on a refresh the token endpoint answers successfully (the gate
is open, so the update is applied): the result reports `true`; AccessToken is
replaced by the new access token; if a new identity token is present, Email,
User and Groups are fully replaced by the values re-verified from it (never
merged with prior values) and IDToken becomes the new token; if no identity
token is returned, Email, User, Groups and IDToken keep their prior values;
RefreshToken is replaced only when a new refresh token is returned, otherwise
the old one is kept. -/
theorem claim_C6 (now : GoTime) (resp : TokenResponse) (vn : String → IDTokenInfo)
    (s : Session) (hgate : needsNoRefresh now s = false) :
    (RefreshSessionIfNeeded now resp vn s).1 = true ∧
    (RefreshSessionIfNeeded now resp vn s).2.AccessToken = resp.access ∧
    (∀ t, resp.idToken = some t →
      (RefreshSessionIfNeeded now resp vn s).2.Email = (vn t).email ∧
      (RefreshSessionIfNeeded now resp vn s).2.User = (vn t).user ∧
      (RefreshSessionIfNeeded now resp vn s).2.Groups = (vn t).groups ∧
      (RefreshSessionIfNeeded now resp vn s).2.IDToken = t) ∧
    (resp.idToken = none →
      (RefreshSessionIfNeeded now resp vn s).2.Email = s.Email ∧
      (RefreshSessionIfNeeded now resp vn s).2.User = s.User ∧
      (RefreshSessionIfNeeded now resp vn s).2.Groups = s.Groups ∧
      (RefreshSessionIfNeeded now resp vn s).2.IDToken = s.IDToken) ∧
    (resp.refresh ≠ "" →
      (RefreshSessionIfNeeded now resp vn s).2.RefreshToken = resp.refresh) ∧
    (resp.refresh = "" →
      (RefreshSessionIfNeeded now resp vn s).2.RefreshToken = s.RefreshToken) := by
  have hR : RefreshSessionIfNeeded now resp vn s = (true, applyRefresh resp vn s) := by
    simp [RefreshSessionIfNeeded, hgate]
  rw [hR]
  refine ⟨rfl, ?_, ?_, ?_, ?_, ?_⟩
  · rcases hid : resp.idToken with _ | t <;> simp [applyRefresh, hid]
  · intro t ht
    simp [applyRefresh, ht]
  · intro hnone
    simp [applyRefresh, hnone]
  · intro hrt
    rcases hid : resp.idToken with _ | t <;> simp [applyRefresh, hid, hrt]
  · intro hrt
    rcases hid : resp.idToken with _ | t <;> simp [applyRefresh, hid, hrt]

/-- The session of the repository test
`TestOIDCProviderRefreshSessionIfNeededWithIdToken` (all fields "changeit"). -/
def c6Session : Session :=
  { AccessToken := "changeit", IDToken := "changeit", RefreshToken := "refresh",
    Email := "changeit", User := "changeit", Groups := some ["old"],
    ExpiresOn := none, CreatedAt := none, IntrospectClaims := "" }

/-- The token-endpoint answer of that test: a new access token and a new
identity token, but no new refresh token. -/
def c6Resp : TokenResponse :=
  { access := "access", refresh := "", expires := none, idToken := some "newid" }

/-- Re-verification of the new identity token (the test token's claims). -/
def c6Verify : String → IDTokenInfo :=
  fun _ => { email := "janed@me.com", user := "123456789",
             groups := some ["test:a", "test:b"] }

/-- Witness for claim C6, mirroring the with-id-token refresh test: identity
fields fully replaced from the new token, access token replaced, old refresh
token kept because none was returned. -/
theorem claim_C6_witness :
    needsNoRefresh ⟨0, 0⟩ c6Session = false ∧
    (RefreshSessionIfNeeded ⟨0, 0⟩ c6Resp c6Verify c6Session).1 = true ∧
    (RefreshSessionIfNeeded ⟨0, 0⟩ c6Resp c6Verify c6Session).2.Email = "janed@me.com" ∧
    (RefreshSessionIfNeeded ⟨0, 0⟩ c6Resp c6Verify c6Session).2.User = "123456789" ∧
    (RefreshSessionIfNeeded ⟨0, 0⟩ c6Resp c6Verify c6Session).2.AccessToken = "access" ∧
    (RefreshSessionIfNeeded ⟨0, 0⟩ c6Resp c6Verify c6Session).2.RefreshToken = "refresh" := by
  have hthm := claim_C6 ⟨0, 0⟩ c6Resp c6Verify c6Session (by decide)
  exact ⟨by decide, hthm.1, (hthm.2.2.1 "newid" rfl).1, (hthm.2.2.1 "newid" rfl).2.1,
    hthm.2.1, hthm.2.2.2.2.2 rfl⟩

/-! ### Claim C9: groups normalization -/

/-- Claim C9: groups normalization maps every claim-value shape as specified:
absent key → found=false; a list of strings is copied with order preserved; a
list of objects becomes the list of their canonical stable-key-order compact
serializations; a single object becomes a one-element list of its
serialization; a single string becomes a one-element list; an explicit empty
list yields found=true with a zero-length result. -/
theorem claim_C9 (claims : List (String × JSONValue)) (name : String) :
    (lookupClaim claims name = none → extractGroups claims name = none) ∧
    (∀ ss : List String, lookupClaim claims name = some (.arr (ss.map .str)) →
      extractGroups claims name = some ss) ∧
    (∀ objs : List (List (String × JSONValue)),
      lookupClaim claims name = some (.arr (objs.map .obj)) →
      extractGroups claims name = some (objs.map fun o => serialize (.obj o))) ∧
    (∀ kvs, lookupClaim claims name = some (.obj kvs) →
      extractGroups claims name = some [serialize (.obj kvs)]) ∧
    (∀ s1, lookupClaim claims name = some (.str s1) →
      extractGroups claims name = some [s1]) ∧
    (lookupClaim claims name = some (.arr []) →
      extractGroups claims name = some []) := by
  refine ⟨?_, ?_, ?_, ?_, ?_, ?_⟩
  · intro h
    unfold extractGroups
    rw [h]
  · intro ss h
    unfold extractGroups
    rw [h]
    show some ((ss.map JSONValue.str).map formatGroup) = some ss
    rw [List.map_map]
    congr 1
    calc ss.map (formatGroup ∘ JSONValue.str) = ss.map id :=
          List.map_congr_left fun a _ => rfl
      _ = ss := List.map_id ss
  · intro objs h
    unfold extractGroups
    rw [h]
    show some ((objs.map JSONValue.obj).map formatGroup)
        = some (objs.map fun o => serialize (.obj o))
    rw [List.map_map]
    rfl
  · intro kvs h
    unfold extractGroups
    rw [h]
    rfl
  · intro s1 h
    unfold extractGroups
    rw [h]
    rfl
  · intro h
    unfold extractGroups
    rw [h]
    rfl

/-- Claims carrying the spec's single-object groups example, keys given out
of sorted order. -/
def c9Claims : List (String × JSONValue) :=
  [("groups", .obj [("roles", .arr [.str "Admin"]), ("groupId", .str "G")])]

/-- Witness for claim C9: the single object normalizes to its canonical
sorted-key compact serialization; the absent key, single string and explicit
empty list shapes behave as specified. -/
theorem claim_C9_witness :
    lookupClaim c9Claims "groups"
      = some (.obj [("roles", .arr [.str "Admin"]), ("groupId", .str "G")]) ∧
    extractGroups c9Claims "groups"
      = some ["\x7b\"groupId\":\"G\",\"roles\":[\"Admin\"]\x7d"] ∧
    extractGroups c9Claims "missing" = none ∧
    extractGroups [("groups", .str "solo")] "groups" = some ["solo"] ∧
    extractGroups [("groups", .arr [])] "groups" = some [] := by
  refine ⟨rfl, ?_, ?_, ?_, ?_⟩
  · have hobj := (claim_C9 c9Claims "groups").2.2.2.1
      [("roles", .arr [.str "Admin"]), ("groupId", .str "G")] rfl
    rw [hobj]
    decide
  · exact (claim_C9 c9Claims "missing").1 rfl
  · exact (claim_C9 [("groups", .str "solo")] "groups").2.2.2.2.1 "solo" rfl
  · exact (claim_C9 [("groups", .arr [])] "groups").2.2.2.2.2 rfl

end OAuth2Proxy
